import Mathlib

/-!
# Verification of the go-velocypack read-side Slice core

A shallow embedding of the VelocyPack `Slice` decoder (`slice.go`,
`object_iterator.go`).  Byte buffers are modelled as `List Nat` (each entry a
byte value `< 256`, enforced by hypotheses where relevant), Go's `(T, error)`
returns as `Except VpError`, and Go's nil-Slice results of attr lookup as
`Option Slice`.  Helper code of the repository that is not part of the given
sources (lookup tables, integer codecs, the attr-translator plumbing and
`checkOverflow`) is modelled from the specification, as indicated on each
definition.
-/

deriving instance DecidableEq for Except

namespace VPack

/-- Error kinds of the library (`WithStack` decoration is the identity here).
`Todo` models the placeholder `fmt.Errorf("TODO")` of `NewObjectIterator`. -/
inductive VpError where
  | InvalidType (msg : String)
  | NumberOutOfRange
  | IndexOutOfBounds
  | NeedAttributeTranslator
  | Overflow
  | Internal
  | Todo
  deriving DecidableEq, Repr

/-- The VelocyPack value types. -/
inductive ValueType where
  | None | Illegal | Null | Bool | Array | Object | Double | UTCDate
  | Extrnl | MinKey | MaxKey | Int | UInt | SmallInt | String | Binary
  | BCD | Custom
  deriving DecidableEq, Repr

/-- A Slice: read-only view of a byte buffer (`type Slice []byte`). -/
abbrev Slice := List Nat

/-- Modelled from the spec: the 256-entry head-byte-to-ValueType table of §3.
Heads outside the table (`0x15`, `0x16`, `0xd8..0xef`, `≥ 0x100`) map to None. -/
def typeOfHead (h : Nat) : ValueType :=
  if h = 0x00 then .None
  else if h ≤ 0x09 then .Array
  else if h ≤ 0x12 then .Object
  else if h = 0x13 then .Array
  else if h = 0x14 then .Object
  else if h ≤ 0x16 then .None
  else if h = 0x17 then .Illegal
  else if h = 0x18 then .Null
  else if h ≤ 0x1a then .Bool
  else if h = 0x1b then .Double
  else if h = 0x1c then .UTCDate
  else if h = 0x1d then .Extrnl
  else if h = 0x1e then .MinKey
  else if h = 0x1f then .MaxKey
  else if h ≤ 0x27 then .Int
  else if h ≤ 0x2f then .UInt
  else if h ≤ 0x3f then .SmallInt
  else if h ≤ 0xbf then .String
  else if h ≤ 0xc7 then .Binary
  else if h ≤ 0xd7 then .BCD
  else if h ≤ 0xef then .None
  else if h ≤ 0xff then .Custom
  else .None

/-- Modelled from the spec (§4.1, §3): `widthMap[h]`, the width in bytes of each
offset-table entry for container heads; 0 elsewhere. -/
def widthMap (h : Nat) : Nat :=
  if h = 0x02 ∨ h = 0x06 ∨ h = 0x0b ∨ h = 0x0f then 1
  else if h = 0x03 ∨ h = 0x07 ∨ h = 0x0c ∨ h = 0x10 then 2
  else if h = 0x04 ∨ h = 0x08 ∨ h = 0x0d ∨ h = 0x11 then 4
  else if h = 0x05 ∨ h = 0x09 ∨ h = 0x0e ∨ h = 0x12 then 8
  else 0

/-- Modelled from the spec (§4.1, §3, §4.2 step 1): `fixedTypeLengths[h]`,
the statically known byte length of a value with head `h`, 0 if variable. -/
def fixedTypeLengths (h : Nat) : Nat :=
  if h = 0x00 ∨ h = 0x01 ∨ h = 0x0a then 1
  else if 0x17 ≤ h ∧ h ≤ 0x1a then 1
  else if h = 0x1b ∨ h = 0x1c then 9
  else if h = 0x1e ∨ h = 0x1f then 1
  else if 0x20 ≤ h ∧ h ≤ 0x27 then h - 0x1f + 1
  else if 0x28 ≤ h ∧ h ≤ 0x2f then h - 0x27 + 1
  else if 0x30 ≤ h ∧ h ≤ 0x3f then 1
  else if 0x40 ≤ h ∧ h ≤ 0xbe then h - 0x40 + 1
  else if h = 0xf0 then 2
  else if h = 0xf1 then 3
  else if h = 0xf2 then 5
  else if h = 0xf3 then 9
  else 0

/-- Modelled from the spec (§4.1, §4.5): `firstSubMap[h]`, the smallest byte
position at which member data of a container with head `h` may begin
(1 + size fields of minimal width). -/
def firstSubMap (h : Nat) : Nat :=
  if h = 0x01 ∨ h = 0x0a then 1
  else if h = 0x02 then 2
  else if h = 0x03 then 3
  else if h = 0x04 then 5
  else if h = 0x05 then 9
  else if h = 0x06 ∨ h = 0x0b ∨ h = 0x0f then 3
  else if h = 0x07 ∨ h = 0x0c ∨ h = 0x10 then 5
  else if h ≤ 0x12 then 9
  else 0

/-- Modelled from the spec (§2): decode a fixed-width little-endian unsigned
integer from the first `len` bytes (bytes beyond the list decode as 0). -/
def readIntegerLE (s : List Nat) (len : Nat) : Nat :=
  match len, s with
  | 0, _ => 0
  | _ + 1, [] => 0
  | n + 1, b :: rest => b + 256 * readIntegerLE rest n

/-- `readIntegerNonEmpty` of the repository: little-endian unsigned read. -/
def readIntegerNonEmpty (s : List Nat) (len : Nat) : Nat := readIntegerLE s len

/-- `readIntegerFixed` of the repository: little-endian unsigned read. -/
def readIntegerFixed (s : List Nat) (len : Nat) : Nat := readIntegerLE s len

/-- Modelled from the spec (§6): forward decoding of a self-delimited
variable-length unsigned integer (7 data bits per byte, top bit =
continuation). -/
def readVariableValueLengthFwd : List Nat → Nat
  | [] => 0
  | b :: rest =>
    (b % 128) + (if 128 ≤ b then 128 * readVariableValueLengthFwd rest else 0)

/-- Modelled from the spec (§6, §9): backward decoding of a trailing
variable-length unsigned integer, starting at absolute index `idx` of `s` and
walking towards lower indices while the continuation bit is set. -/
def readVariableValueLengthRev (s : List Nat) : Nat → Nat
  | 0 => s.getD 0 0 % 128
  | i + 1 =>
    let b := s.getD (i + 1) 0
    (b % 128) + (if 128 ≤ b then 128 * readVariableValueLengthRev s i else 0)

/-- Modelled from the spec (§6): number of bytes of the variable-length
encoding of `value`; `fuel` bounds the division chain (any `fuel ≥ value`
is exact, since `value / 128 < value` for `value ≥ 128`). -/
def getVariableValueLengthAux (fuel value : Nat) : Nat :=
  match fuel with
  | 0 => 1
  | f + 1 => if value < 128 then 1 else 1 + getVariableValueLengthAux f (value / 128)

/-- Modelled from the spec (§6): number of bytes of the variable-length
encoding of `value`. -/
def getVariableValueLength (value : Nat) : Nat :=
  getVariableValueLengthAux value value

/-- Modelled from the spec (§3, §4.2): pointer width of the platform (64-bit). -/
def charPtrLength : Nat := 8

/-- `head()`: the first byte of the slice, or 0 if it is empty. -/
def headByte (s : Slice) : Nat := s.headD 0

/-- `Type()`: the ValueType denoted by the head byte. -/
def typeOf (s : Slice) : ValueType := typeOfHead (headByte s)

/-- `IsArray()`. -/
def IsArray (s : Slice) : Bool := typeOf s == .Array

/-- `IsObject()`. -/
def IsObject (s : Slice) : Bool := typeOf s == .Object

/-- `IsString()`. -/
def IsString (s : Slice) : Bool := typeOf s == .String

/-- `IsBinary()`. -/
def IsBinary (s : Slice) : Bool := typeOf s == .Binary

/-- `IsSmallInt()`. -/
def IsSmallInt (s : Slice) : Bool := typeOf s == .SmallInt

/-- `IsUInt()`. -/
def IsUInt (s : Slice) : Bool := typeOf s == .UInt

/-- `ByteSize`: total byte size of the value at the start of the slice,
including the head byte (`slice.go`).  `VELOCYPACK_ASSERT` is a no-op. -/
def ByteSize (s : Slice) : Except VpError Nat :=
  let h := headByte s
  let l := fixedTypeLengths h
  if l ≠ 0 then .ok l
  else
    match typeOfHead h with
    | .Array | .Object =>
      if h = 0x13 ∨ h = 0x14 then
        .ok (readVariableValueLengthFwd (s.drop 1))
      else if h = 0x01 ∨ h = 0x0a then
        .ok 1
      else
        .ok (readIntegerNonEmpty (s.drop 1) (widthMap h))
    | .Extrnl => .ok (1 + charPtrLength)
    | .UTCDate => .ok (1 + 8)
    | .Int => .ok (1 + (h - 0x1f))
    | .String =>
      if h < 0xbf then .ok (h - 0x40)
      else .ok (1 + 8 + readIntegerFixed (s.drop 1) 8)
    | .Binary =>
      .ok (1 + (h - 0xbf) + readIntegerNonEmpty (s.drop 1) (h - 0xbf))
    | .BCD =>
      if h ≤ 0xcf then
        .ok (1 + (h - 0xc7) + readIntegerNonEmpty (s.drop 1) (h - 0xc7))
      else
        .ok (1 + (h - 0xcf) + readIntegerNonEmpty (s.drop 1) (h - 0xcf))
    | .Custom =>
      if h = 0xf4 ∨ h = 0xf5 ∨ h = 0xf6 then
        .ok (2 + readIntegerFixed (s.drop 1) 1)
      else if h = 0xf7 ∨ h = 0xf8 ∨ h = 0xf9 then
        .ok (3 + readIntegerFixed (s.drop 1) 2)
      else if h = 0xfa ∨ h = 0xfb ∨ h = 0xfc then
        .ok (5 + readIntegerFixed (s.drop 1) 4)
      else if h = 0xfd ∨ h = 0xfe ∨ h = 0xff then
        .ok (9 + readIntegerFixed (s.drop 1) 8)
      else .error .Internal
    | _ => .error .Internal

/-- `Next`: the Slice that directly follows the given slice
(`s[s.ByteSize:]`). -/
def Next (s : Slice) : Except VpError Slice :=
  match ByteSize s with
  | .error e => .error e
  | .ok size => .ok (s.drop size)

/-- `toInt64`: two's-complement reinterpretation of a 64-bit unsigned value.
Modelled from the spec (§4.4): for head `0x27` the value is the
two's-complement reinterpretation. -/
def toInt64 (v : Nat) : Int :=
  if v < 2 ^ 63 then (v : Int) else (v : Int) - 2 ^ 64

/-- The direct Int decoding branch of `GetInt` for heads `0x20..0x27`
(`slice.go` lines 240-254). -/
def getIntDirect (s : Slice) : Int :=
  let h := headByte s
  let v := readIntegerNonEmpty (s.drop 1) (h - 0x1f)
  if h = 0x27 then toInt64 v
  else
    let shift : Int := 2 ^ ((h - 0x1f) * 8 - 1)
    if (v : Int) < shift then (v : Int) else (v : Int) - 2 * shift

/-- The direct SmallInt decoding of `GetSmallInt` for heads `0x30..0x3f`
(`slice.go` lines 341-349). -/
def getSmallIntDirect (s : Slice) : Int :=
  let h := headByte s
  if 0x30 ≤ h ∧ h ≤ 0x39 then ((h : Int) - 0x30)
  else ((h : Int) - 0x3a) - 6

/-- `GetUInt`: unsigned integer value of the slice (`slice.go`).  The Int
branch calls `GetInt`, which for heads `0x20..0x27` computes `getIntDirect`
and never fails; that call is unfolded here to break the (head-range-bounded)
mutual recursion of the Go source. -/
def GetUInt (s : Slice) : Except VpError Nat :=
  let h := headByte s
  if h = 0x28 then .ok (s.getD 1 0)
  else if 0x29 ≤ h ∧ h ≤ 0x2f then
    .ok (readIntegerNonEmpty (s.drop 1) (h - 0x27))
  else if 0x20 ≤ h ∧ h ≤ 0x27 then
    let v := getIntDirect s
    if v < 0 then .error .NumberOutOfRange else .ok v.toNat
  else if 0x30 ≤ h ∧ h ≤ 0x39 then .ok (h - 0x30)
  else if 0x3a ≤ h ∧ h ≤ 0x3f then .error .NumberOutOfRange
  else .error (.InvalidType "Expecting type UInt")

/-- `GetInt`: signed integer value of the slice (`slice.go`).  The SmallInt
branch calls `GetSmallInt`, which for heads `0x30..0x3f` computes
`getSmallIntDirect`; that call is unfolded here to break the
(head-range-bounded) mutual recursion of the Go source. -/
def GetInt (s : Slice) : Except VpError Int :=
  let h := headByte s
  if 0x20 ≤ h ∧ h ≤ 0x27 then .ok (getIntDirect s)
  else if 0x28 ≤ h ∧ h ≤ 0x2f then
    match GetUInt s with
    | .error e => .error e
    | .ok v => if 2 ^ 63 - 1 < v then .error .NumberOutOfRange else .ok (v : Int)
  else if 0x30 ≤ h ∧ h ≤ 0x3f then .ok (getSmallIntDirect s)
  else .error (.InvalidType "Expecting type Int")

/-- `GetSmallInt`: small integer value of the slice (`slice.go`).  Heads
`0x20..0x2f` delegate to `GetInt`. -/
def GetSmallInt (s : Slice) : Except VpError Int :=
  let h := headByte s
  if 0x30 ≤ h ∧ h ≤ 0x39 then .ok ((h : Int) - 0x30)
  else if 0x3a ≤ h ∧ h ≤ 0x3f then .ok (((h : Int) - 0x3a) - 6)
  else if (0x20 ≤ h ∧ h ≤ 0x27) ∨ (0x28 ≤ h ∧ h ≤ 0x2f) then GetInt s
  else .error (.InvalidType "Expecting type SmallInt")

/-- Modelled from the spec (§4.4): the implementation's addressable size
limit, the maximum signed 64-bit integer on a 64-bit platform. -/
def maxAddressable : Nat := 2 ^ 63 - 1

/-- Modelled from the spec (§4.4): `checkOverflow` fails with *overflow* when
a declared length exceeds the addressable size limit. -/
def checkOverflow (length : Nat) : Except VpError Unit :=
  if maxAddressable < length then .error .Overflow else .ok ()

/-- `GetString`: the byte content of a String value (`slice.go`). -/
def GetString (s : Slice) : Except VpError (List Nat) :=
  let h := headByte s
  if 0x40 ≤ h ∧ h ≤ 0xbe then
    .ok ((s.drop 1).take (h - 0x40))
  else if h = 0xbf then
    let length := readIntegerFixed (s.drop 1) 8
    match checkOverflow length with
    | .error e => .error e
    | .ok _ => .ok ((s.drop 9).take length)
  else .error (.InvalidType "Expecting type String")

/-- `GetBinary`: the byte content of a Binary value (`slice.go`).  Note that
the source computes `checkOverflow(length)` but discards its result. -/
def GetBinary (s : Slice) : Except VpError (List Nat) :=
  if ¬ IsBinary s then .error (.InvalidType "Expecting type Binary")
  else
    let h := headByte s
    let lengthSize := h - 0xbf
    let length := readIntegerNonEmpty (s.drop 1) lengthSize
    .ok ((s.drop (1 + lengthSize)).take length)

/-- `bytes.Compare` on byte strings: -1, 0 or 1 by lexicographic order. -/
def lexCompare : List Nat → List Nat → Int
  | [], [] => 0
  | [], _ :: _ => -1
  | _ :: _, [] => 1
  | a :: as, b :: bs => if a < b then -1 else if b < a then 1 else lexCompare as bs

/-- `CompareString`: compare the string value in the slice with `value`. -/
def CompareString (s : Slice) (value : List Nat) : Except VpError Int :=
  match GetString s with
  | .error e => .error e
  | .ok k => .ok (lexCompare k value)

/-- `IsEqualString`: equality of the string value in the slice with `value`. -/
def IsEqualString (s : Slice) (value : List Nat) : Except VpError Bool :=
  match GetString s with
  | .error e => .error e
  | .ok k => .ok (k == value)

/-- An attr translator: `IDToString`, with `[]` (empty string) for
unknown ids.  Modelled from the spec (§4.8): the process-wide
`AttributeTranslator` is threaded as an explicit `Option Translator`
parameter (`none` = not configured). -/
abbrev Translator := Nat → List Nat

/-- `getUIntUnchecked`: UInt value without checks, 0 for invalid types. -/
def getUIntUnchecked (s : Slice) : Nat :=
  let h := headByte s
  if 0x28 ≤ h ∧ h ≤ 0x2f then readIntegerNonEmpty (s.drop 1) (h - 0x27)
  else if 0x30 ≤ h ∧ h ≤ 0x39 then h - 0x30
  else 0

/-- Little-endian fixed-width encoding of `v` on `width` bytes.  Modelled from
the spec (§2). -/
def encodeLE (v : Nat) : Nat → List Nat
  | 0 => []
  | n + 1 => (v % 256) :: encodeLE (v / 256) n

/-- `StringSlice`: build a String slice from raw bytes.  Modelled from the
spec (§3): short form `0x40 + len` for up to 126 bytes, else long form
`0xbf` with 8-byte length. -/
def StringSlice (str : List Nat) : Slice :=
  if str.length ≤ 126 then (0x40 + str.length) :: str
  else 0xbf :: encodeLE str.length 8 ++ str

/-- `translateUnchecked`: translate an integer key into a string slice,
without checks; nil (`[]`) when the translator does not know the id. -/
def translateUnchecked (t : Translator) (s : Slice) : Slice :=
  let key := t (getUIntUnchecked s)
  if key = [] then [] else StringSlice key

/-- `makeKey`: return a String key as is, translate an integer key. -/
def makeKey (tr : Option Translator) (s : Slice) : Except VpError Slice :=
  if IsString s then .ok s
  else if IsSmallInt s ∨ IsUInt s then
    match tr with
    | none => .error .NeedAttributeTranslator
    | some t => .ok (translateUnchecked t s)
  else .error (.InvalidType "Cannot translate key of this type")

/-- `findDataOffset`: the byte offset of the first member of a nonempty
array/object (`slice.go`). -/
def findDataOffset (s : Slice) (head : Nat) : Nat :=
  let fsm := firstSubMap head
  if fsm ≤ 2 ∧ s.getD 2 0 ≠ 0 then 2
  else if fsm ≤ 3 ∧ s.getD 3 0 ≠ 0 then 3
  else if fsm ≤ 5 ∧ s.getD 5 0 ≠ 0 then 5
  else 9

/-- `Length`: number of members of an Array or Object (`slice.go`). -/
def Length (s : Slice) : Except VpError Nat :=
  if ¬ IsArray s ∧ ¬ IsObject s then
    .error (.InvalidType "Expecting type Array or Object")
  else
    let h := headByte s
    if h = 0x01 ∨ h = 0x0a then .ok 0
    else if h = 0x13 ∨ h = 0x14 then
      let e := readVariableValueLengthFwd (s.drop 1)
      .ok (readVariableValueLengthRev s (e - 1))
    else
      let offsetSize := widthMap h
      let e := readIntegerNonEmpty (s.drop 1) offsetSize
      if h ≤ 0x05 then
        let firstSubOffset := findDataOffset s h
        match ByteSize (s.drop firstSubOffset) with
        | .error er => .error er
        | .ok sz =>
          if sz = 0 then .error .Internal
          else .ok ((e - firstSubOffset) / sz)
      else if offsetSize < 8 then
        .ok (readIntegerNonEmpty (s.drop (1 + offsetSize)) offsetSize)
      else
        .ok (readIntegerNonEmpty (s.drop (e - offsetSize)) offsetSize)

/-- The member-skipping walk of `getNthOffsetFromCompact`: advance `steps`
times from `offset`, skipping one value (and for objects also the following
value) per step. -/
def compactWalk (s : Slice) (isObj : Bool) (offset : Nat) : Nat → Except VpError Nat
  | 0 => .ok offset
  | steps + 1 =>
    match ByteSize (s.drop offset) with
    | .error e => .error e
    | .ok bs =>
      if isObj then
        match ByteSize (s.drop (offset + bs)) with
        | .error e => .error e
        | .ok bs2 => compactWalk s isObj (offset + bs + bs2) steps
      else compactWalk s isObj (offset + bs) steps

/-- `getNthOffsetFromCompact`: offset of the nth member of a compact Array or
Object (`slice.go`). -/
def getNthOffsetFromCompact (s : Slice) (index : Nat) : Except VpError Nat :=
  let e := readVariableValueLengthFwd (s.drop 1)
  let n := readVariableValueLengthRev s (e - 1)
  if n ≤ index then .error .IndexOutOfBounds
  else
    let h := headByte s
    compactWalk s (h = 0x14) (1 + getVariableValueLength e) index

/-- `getNthOffset`: offset of the nth member of an Array or Object
(`slice.go`). -/
def getNthOffset (s : Slice) (index : Nat) : Except VpError Nat :=
  let h := headByte s
  if h = 0x13 ∨ h = 0x14 then getNthOffsetFromCompact s index
  else if h = 0x01 ∨ h = 0x0a then .error .IndexOutOfBounds
  else
    let offsetSize := widthMap h
    let e := readIntegerNonEmpty (s.drop 1) offsetSize
    let resN : Except VpError (Nat × Nat) :=
      if h ≤ 0x05 then
        let dataOffset := findDataOffset s h
        match ByteSize (s.drop dataOffset) with
        | .error er => .error er
        | .ok sz =>
          if sz = 0 then .error .Internal
          else .ok ((e - dataOffset) / sz, dataOffset)
      else if offsetSize < 8 then
        .ok (readIntegerNonEmpty (s.drop (1 + offsetSize)) offsetSize, 0)
      else
        .ok (readIntegerNonEmpty (s.drop (e - offsetSize)) offsetSize, 0)
    match resN with
    | .error er => .error er
    | .ok (n, dataOffset) =>
      if n ≤ index then .error .IndexOutOfBounds
      else if h ≤ 0x05 ∨ n = 1 then
        let dataOffset := if dataOffset = 0 then findDataOffset s h else dataOffset
        match ByteSize (s.drop dataOffset) with
        | .error er => .error er
        | .ok sz => .ok (dataOffset + index * sz)
      else
        let offsetSize8Or0 := if offsetSize = 8 then 8 else 0
        let ieBase := e - n * offsetSize + index * offsetSize - offsetSize8Or0
        .ok (readIntegerNonEmpty (s.drop ieBase) offsetSize)

/-- `getNth`: the nth member of an Array. -/
def getNth (s : Slice) (index : Nat) : Except VpError Slice :=
  match getNthOffset s index with
  | .error e => .error e
  | .ok offset => .ok (s.drop offset)

/-- `getNthKey`: the nth key of an Object, optionally translated. -/
def getNthKey (tr : Option Translator) (s : Slice) (index : Nat) (translate : Bool) :
    Except VpError Slice :=
  match getNthOffset s index with
  | .error e => .error e
  | .ok offset =>
    if translate then makeKey tr (s.drop offset) else .ok (s.drop offset)

/-- `getNthValue`: the nth value of an Object. -/
def getNthValue (tr : Option Translator) (s : Slice) (index : Nat) :
    Except VpError Slice :=
  match getNthKey tr s index false with
  | .error e => .error e
  | .ok key => Next key

/-- `At`: the array member at `index`. -/
def At (s : Slice) (index : Nat) : Except VpError Slice :=
  if ¬ IsArray s then .error (.InvalidType "Expecting type Array")
  else getNth s index

/-- `KeyAt`: the key of the object member at `index` (Go's optional
`translate` argument made explicit; it defaults to true in the source). -/
def KeyAt (tr : Option Translator) (s : Slice) (index : Nat) (translate : Bool) :
    Except VpError Slice :=
  if ¬ IsObject s then .error (.InvalidType "Expecting type Object")
  else getNthKey tr s index translate

/-- `ValueAt`: the value of the object member at `index`. -/
def ValueAt (tr : Option Translator) (s : Slice) (index : Nat) :
    Except VpError Slice :=
  if ¬ IsObject s then .error (.InvalidType "Expecting type Object")
  else
    match getNthKey tr s index false with
    | .error e => .error e
    | .ok key =>
      match ByteSize key with
      | .error e => .error e
      | .ok byteSize => .ok (key.drop byteSize)

/-- The loop of `searchObjectKeyLinear`, scanning `count` remaining index
entries starting at entry `index`.  `.ok none` is the Go nil None-Slice. -/
def searchObjectKeyLinearFrom (tr : Option Translator) (s : Slice)
    (attr : List Nat) (ieBase offsetSize : Nat) :
    Nat → Nat → Except VpError (Option Slice)
  | 0, _ => .ok none
  | count + 1, index =>
    let offset := ieBase + index * offsetSize
    let key := s.drop (readIntegerNonEmpty (s.drop offset) offsetSize)
    if IsString key then
      match IsEqualString key attr with
      | .error e => .error e
      | .ok true =>
        match Next key with
        | .error e => .error e
        | .ok value => .ok (some value)
      | .ok false => searchObjectKeyLinearFrom tr s attr ieBase offsetSize count (index + 1)
    else if IsSmallInt key ∨ IsUInt key then
      match tr with
      | none => .error .NeedAttributeTranslator
      | some t =>
        match IsEqualString (translateUnchecked t key) attr with
        | .error e => .error e
        | .ok true =>
          match Next key with
          | .error e => .error e
          | .ok value => .ok (some value)
        | .ok false => searchObjectKeyLinearFrom tr s attr ieBase offsetSize count (index + 1)
    else .ok none

/-- `searchObjectKeyLinear`: linear search for `attr` among the `n`
index-table entries (`slice.go`). -/
def searchObjectKeyLinear (tr : Option Translator) (s : Slice) (attr : List Nat)
    (ieBase offsetSize n : Nat) : Except VpError (Option Slice) :=
  searchObjectKeyLinearFrom tr s attr ieBase offsetSize n 0

/-- The loop of `searchObjectKeyBinary` on the closed interval `[l, r]`; the
probe index is `l + (r - l) / 2` (equal to the initial `r / 2` when `l = 0`,
and recomputed exactly like this at the bottom of the Go loop).  `fuel`
bounds the iteration count; any `fuel ≥ r + 1 - l` is exact, because the
interval length strictly shrinks every iteration. -/
def searchObjectKeyBinaryLoop (tr : Option Translator) (s : Slice)
    (attr : List Nat) (ieBase offsetSize : Nat) (fuel : Nat) (l r : Nat) :
    Except VpError (Option Slice) :=
  match fuel with
  | 0 => .ok none
  | fuel + 1 =>
  let index := l + (r - l) / 2
  let key := s.drop (readIntegerFixed (s.drop (ieBase + index * offsetSize)) offsetSize)
  let resE : Except VpError (Option Int) :=
    if IsString key then
      match CompareString key attr with
      | .error e => .error e
      | .ok res => .ok (some res)
    else if IsSmallInt key ∨ IsUInt key then
      match tr with
      | none => .error .NeedAttributeTranslator
      | some t =>
        match CompareString (translateUnchecked t key) attr with
        | .error e => .error e
        | .ok res => .ok (some res)
    else .ok none
  match resE with
  | .error e => .error e
  | .ok none => .ok none
  | .ok (some res) =>
    if res = 0 then
      match ByteSize key with
      | .error e => .error e
      | .ok keySize => .ok (some (key.drop keySize))
    else if 0 < res then
      if index = 0 then .ok none
      else if index - 1 < l then .ok none
      else searchObjectKeyBinaryLoop tr s attr ieBase offsetSize fuel l (index - 1)
    else
      if r < index + 1 then .ok none
      else searchObjectKeyBinaryLoop tr s attr ieBase offsetSize fuel (index + 1) r

/-- `searchObjectKeyBinary`: binary search for `attr` among the `n`
sorted index-table entries (`slice.go`), starting with `l = 0`,
`r = n - 1` (the fuel `n = r + 1 - l` is exact). -/
def searchObjectKeyBinary (tr : Option Translator) (s : Slice) (attr : List Nat)
    (ieBase n offsetSize : Nat) : Except VpError (Option Slice) :=
  searchObjectKeyBinaryLoop tr s attr ieBase offsetSize n 0 (n - 1)

/-- The `ObjectIterator` state (`object_iterator.go`): `current = none`
models Go's nil `current` slice. -/
structure ObjectIterator where
  s : Slice
  position : Nat
  size : Nat
  current : Option Slice
  deriving DecidableEq, Repr

/-- `NewObjectIterator` (`object_iterator.go`): initialise an iterator at
position 0; for a non-empty non-compact object the source returns the
placeholder error `fmt.Errorf("TODO")`, modelled as `.error .Todo`. -/
def NewObjectIterator (tr : Option Translator) (s : Slice) :
    Except VpError ObjectIterator :=
  if ¬ IsObject s then .error (.InvalidType "Expected Object slice")
  else
    match Length s with
    | .error e => .error e
    | .ok size =>
      if 0 < size then
        if headByte s = 0x14 then
          match KeyAt tr s 0 false with
          | .error e => .error e
          | .ok cur => .ok ⟨s, 0, size, some cur⟩
        else .error .Todo
      else .ok ⟨s, 0, size, none⟩

/-- The iteration of `getFromCompactObject` over a compact object, with
`remaining = size - position` members left and `current` the key slice at the
present position: compare the key, and on a miss advance `current` past key
and value (`it.Next()`), which Go performs only while `position < size`. -/
def getFromCompactObjectLoop (tr : Option Translator) (attr : List Nat) :
    Nat → Slice → Except VpError (Option Slice)
  | 0, _ => .ok none
  | remaining + 1, current =>
    match makeKey tr current with
    | .error e => .error e
    | .ok k =>
      match IsEqualString k attr with
      | .error e => .error e
      | .ok true =>
        match Next current with
        | .error e => .error e
        | .ok value => .ok (some value)
      | .ok false =>
        if 0 < remaining then
          match Next current with
          | .error e => .error e
          | .ok c1 =>
            match Next c1 with
            | .error e => .error e
            | .ok c2 => getFromCompactObjectLoop tr attr remaining c2
        else .ok none

/-- `getFromCompactObject` (`slice.go`): iterate a compact object with an
`ObjectIterator`, comparing each (translated) key against `attr`. -/
def getFromCompactObject (tr : Option Translator) (s : Slice) (attr : List Nat) :
    Except VpError (Option Slice) :=
  match NewObjectIterator tr s with
  | .error e => .error e
  | .ok it =>
    match it.current with
    | none => .ok none
    | some cur => getFromCompactObjectLoop tr attr it.size cur

/-- `Get` (`slice.go`): look up `attr` inside an Object; `.ok none` models the
Go `(nil, nil)` None-Slice result for a missing attr. -/
def Get (tr : Option Translator) (s : Slice) (attr : List Nat) :
    Except VpError (Option Slice) :=
  if ¬ IsObject s then .error (.InvalidType "Expecting Object")
  else
    let h := headByte s
    if h = 0x0a then .ok none
    else if h = 0x14 then getFromCompactObject tr s attr
    else
      let offsetSize := widthMap h
      let e := readIntegerNonEmpty (s.drop 1) offsetSize
      let n :=
        if offsetSize < 8 then
          readIntegerNonEmpty (s.drop (1 + offsetSize)) offsetSize
        else
          readIntegerNonEmpty (s.drop (e - offsetSize)) offsetSize
      let ieBase :=
        if offsetSize < 8 then e - n * offsetSize
        else e - n * offsetSize - offsetSize
      if n = 1 then
        let key := s.drop (findDataOffset s h)
        if IsString key then
          match IsEqualString key attr with
          | .error er => .error er
          | .ok true =>
            match Next key with
            | .error er => .error er
            | .ok value => .ok (some value)
          | .ok false => .ok none
        else if IsSmallInt key ∨ IsUInt key then
          match tr with
          | none => .error .NeedAttributeTranslator
          | some t =>
            match IsEqualString (translateUnchecked t key) attr with
            | .error er => .error er
            | .ok true =>
              match Next key with
              | .error er => .error er
              | .ok value => .ok (some value)
            | .ok false => .ok none
        else .ok none
      else if 4 ≤ n ∧ (0x0b ≤ h ∧ h ≤ 0x0e) then
        if offsetSize = 1 ∨ offsetSize = 2 ∨ offsetSize = 4 ∨ offsetSize = 8 then
          searchObjectKeyBinary tr s attr ieBase n offsetSize
        else searchObjectKeyLinear tr s attr ieBase offsetSize n
      else searchObjectKeyLinear tr s attr ieBase offsetSize n

/-! ## Theorems -/

theorem headByte_cons (b : Nat) (rest : List Nat) : headByte (b :: rest) = b := rfl

/-- C1: for every Slice whose head byte is a non-compact Array or Object head
(`0x02..0x09` or `0x0b..0x12`), `ByteSize` returns the little-endian unsigned
integer of width `widthMap[head]` read starting at byte offset 1 of the
slice, as the total byte length of the value. -/
theorem byteSize_noncompact_reads_length (s : Slice)
    (h : (0x02 ≤ headByte s ∧ headByte s ≤ 0x09) ∨
         (0x0b ≤ headByte s ∧ headByte s ≤ 0x12)) :
    ByteSize s = .ok (readIntegerLE (s.drop 1) (widthMap (headByte s))) := by
  obtain ⟨b, rest, rfl⟩ : ∃ b rest, s = b :: rest := by
    cases s with
    | nil => simp [headByte] at h
    | cons b rest => exact ⟨b, rest, rfl⟩
  rw [headByte_cons] at h ⊢
  rcases h with ⟨h1, h2⟩ | ⟨h1, h2⟩ <;> interval_cases b <;>
    simp [ByteSize, headByte, fixedTypeLengths, typeOfHead, widthMap,
      readIntegerNonEmpty]

theorem byteSize_noncompact_reads_length_witness :
    ByteSize [0x0b, 0x0f, 0x03] = .ok 15 := by
  rw [byteSize_noncompact_reads_length [0x0b, 0x0f, 0x03] (by decide)]
  decide

/-- C10: `GetSmallInt` does not fail on Int heads `0x20..0x27` (it returns
the direct Int decoding); on UInt heads `0x28..0x2f` it delegates to `GetInt`
and returns whatever that returns (subject to `GetInt`'s range error); on
SmallInt heads `0x30..0x3f` it succeeds; an invalid-type error is raised only
for heads outside `0x20..0x3f`. -/
theorem getSmallInt_delegation (s : Slice) :
    (0x20 ≤ headByte s ∧ headByte s ≤ 0x27 →
      GetSmallInt s = .ok (getIntDirect s)) ∧
    (0x20 ≤ headByte s ∧ headByte s ≤ 0x2f → GetSmallInt s = GetInt s) ∧
    (0x30 ≤ headByte s ∧ headByte s ≤ 0x3f → ∃ v, GetSmallInt s = .ok v) ∧
    (headByte s < 0x20 ∨ 0x3f < headByte s →
      GetSmallInt s = .error (.InvalidType "Expecting type SmallInt")) := by
  refine ⟨fun hh => ?_, fun hh => ?_, fun hh => ?_, fun hh => ?_⟩
  · simp only [GetSmallInt, GetInt]
    split_ifs <;> first | rfl | omega
  · simp only [GetSmallInt, GetInt]
    split_ifs <;> first | rfl | omega
  · refine ⟨if 0x30 ≤ headByte s ∧ headByte s ≤ 0x39 then (headByte s : Int) - 0x30
      else ((headByte s : Int) - 0x3a) - 6, ?_⟩
    simp only [GetSmallInt]
    split_ifs <;> first | rfl | omega
  · simp only [GetSmallInt]
    split_ifs <;> first | rfl | omega

theorem getSmallInt_delegation_witness :
    GetSmallInt [0x22, 0x10, 0x20, 0x30] = .ok 0x302010 ∧
    GetSmallInt [0x2f, 0, 0, 0, 0, 0, 0, 0, 0x80] = .error .NumberOutOfRange := by
  constructor
  · rw [(getSmallInt_delegation [0x22, 0x10, 0x20, 0x30]).1 (by decide)]
    decide
  · rw [(getSmallInt_delegation [0x2f, 0, 0, 0, 0, 0, 0, 0, 0x80]).2.1 (by decide)]
    decide

/-- C9 (code bug at `slice.go` line 490): on a long String with a declared
length above the addressable limit, `GetString` fails with *overflow*, but
`GetBinary` on a Binary value with the same excessive declared length does
not fail: the source calls `checkOverflow` and discards its result, returning
a value instead of the overflow error the spec requires. -/
theorem getBinary_ignores_overflow :
    maxAddressable < 2 ^ 63 ∧
    readIntegerNonEmpty [0, 0, 0, 0, 0, 0, 0, 0x80] 8 = 2 ^ 63 ∧
    GetString (0xbf :: [0, 0, 0, 0, 0, 0, 0, 0x80]) = .error .Overflow ∧
    GetBinary (0xc7 :: [0, 0, 0, 0, 0, 0, 0, 0x80]) = .ok [] := by
  refine ⟨by decide, by decide, by decide, ?_⟩
  simp [GetBinary, IsBinary, typeOf, headByte, typeOfHead, readIntegerNonEmpty,
    readIntegerLE]

/-- C7: for an object Slice and an index, `ValueAt` returns the Slice that
starts immediately after the i-th key — at the key's offset plus
`ByteSize(key)` — and equivalently, `Next` applied to the untranslated result
of `KeyAt` equals `ValueAt`. -/
theorem valueAt_is_next_of_keyAt (tr : Option Translator) (s : Slice) (i : Nat) :
    (ValueAt tr s i = match KeyAt tr s i false with
                      | .error e => .error e
                      | .ok key => Next key) ∧
    (∀ off bs, IsObject s → getNthOffset s i = .ok off →
      ByteSize (s.drop off) = .ok bs → ValueAt tr s i = .ok (s.drop (off + bs))) := by
  constructor
  · unfold ValueAt KeyAt getNthKey Next
    by_cases hobj : IsObject s
    · simp only [hobj, not_true_eq_false, if_neg, ite_false, Bool.not_true]
    · simp [hobj]
  · intro off bs hobj hoff hbs
    unfold ValueAt getNthKey
    simp [hobj, hoff, hbs, List.drop_drop, Nat.add_comm]

theorem valueAt_is_next_of_keyAt_witness :
    ValueAt none [0x0b, 0x0f, 0x03, 0x41, 0x61, 0x31, 0x41, 0x62, 0x32, 0x41, 0x63,
      0x33, 0x03, 0x06, 0x09] 1 =
      .ok [0x32, 0x41, 0x63, 0x33, 0x03, 0x06, 0x09] := by
  rw [(valueAt_is_next_of_keyAt none [0x0b, 0x0f, 0x03, 0x41, 0x61, 0x31, 0x41,
    0x62, 0x32, 0x41, 0x63, 0x33, 0x03, 0x06, 0x09] 1).2 6 2
    (by decide) (by decide) (by decide)]
  decide

theorem length_compact (s : Slice) (hobj : IsObject s = true)
    (h14 : headByte s = 0x14) :
    Length s = .ok (readVariableValueLengthRev s
      (readVariableValueLengthFwd (s.drop 1) - 1)) := by
  unfold Length
  simp [hobj, h14]

/-- C6: constructing an `ObjectIterator` on a non-compact, non-empty object
(object head other than `0x14`, length > 0) returns the placeholder error,
while construction on a compact object (head `0x14`) or an empty object
succeeds. -/
theorem newObjectIterator_noncompact_placeholder (tr : Option Translator)
    (s : Slice) (n : Nat) (hobj : IsObject s) (hlen : Length s = .ok n) :
    (headByte s ≠ 0x14 → 0 < n → NewObjectIterator tr s = .error .Todo) ∧
    (headByte s = 0x14 ∨ n = 0 → ∃ it, NewObjectIterator tr s = .ok it) := by
  constructor
  · intro h14 hn
    unfold NewObjectIterator
    simp only [hobj, hlen, not_true_eq_false, ite_false, Bool.not_true, if_pos hn,
      if_neg h14]
  · intro hc
    unfold NewObjectIterator
    simp only [hobj, hlen, not_true_eq_false, ite_false, Bool.not_true]
    by_cases hn : 0 < n
    · rcases hc with h14 | rfl
      · have hrev : readVariableValueLengthRev s
            (readVariableValueLengthFwd (s.drop 1) - 1) = n := by
          have := (length_compact s hobj h14).symm.trans hlen
          exact Except.ok.inj this
        have hrev2 : readVariableValueLengthRev s
            (readVariableValueLengthFwd s.tail - 1) = n := by
          simpa using hrev
        have hn0 : n ≠ 0 := by omega
        have hkey : KeyAt tr s 0 false = .ok (s.drop (1 +
            getVariableValueLength (readVariableValueLengthFwd (s.drop 1)))) := by
          unfold KeyAt getNthKey getNthOffset getNthOffsetFromCompact
          simp [hobj, h14, hrev2, hn0, compactWalk]
        simp only [if_pos hn, h14, if_pos rfl, hkey]
        exact ⟨_, rfl⟩
      · omega
    · rw [if_neg hn]
      exact ⟨_, rfl⟩

theorem newObjectIterator_noncompact_placeholder_witness :
    NewObjectIterator none [0x0b, 0x0f, 0x03, 0x41, 0x61, 0x31, 0x41, 0x62, 0x32,
      0x41, 0x63, 0x33, 0x03, 0x06, 0x09] = .error .Todo := by
  exact (newObjectIterator_noncompact_placeholder none _ 3 (by decide)
    (by decide)).1 (by decide) (by decide)

/-- The sign-extension reading of an Int payload as worded by the spec
(§4.4): read `n = head - 0x1f` payload bytes as a little-endian unsigned
integer and sign-extend from the top bit of payload byte `n - 1`. -/
def signExtendSpec (s : Slice) : Int :=
  let n := headByte s - 0x1f
  let v := readIntegerLE (s.drop 1) n
  if 128 ≤ (s.drop 1).getD (n - 1) 0 then (v : Int) - 2 ^ (8 * n) else (v : Int)

/-- All bytes of a buffer are byte values. -/
def ValidBytes (s : Slice) : Prop := ∀ b ∈ s, b < 256

instance (s : Slice) : Decidable (ValidBytes s) :=
  List.decidableBAll (fun b => b < 256) s

theorem readIntegerLE_lt (l : List Nat) (n : Nat) (hv : ∀ b ∈ l, b < 256) :
    readIntegerLE l n < 256 ^ n := by
  induction n generalizing l with
  | zero => simp [readIntegerLE]
  | succ m ih =>
    cases l with
    | nil => simp [readIntegerLE]
    | cons b rest =>
      have hb : b < 256 := hv b (List.mem_cons_self b rest)
      have hr : readIntegerLE rest m < 256 ^ m :=
        ih rest (fun x hx => hv x (List.mem_cons_of_mem b hx))
      have h2 : 256 * readIntegerLE rest m ≤ 256 * (256 ^ m - 1) :=
        Nat.mul_le_mul_left 256 (by omega)
      have h3 : 256 ^ (m + 1) = 256 * 256 ^ m := by ring
      simp only [readIntegerLE]
      have hpos : 1 ≤ 256 ^ m := Nat.one_le_pow m 256 (by norm_num)
      omega

theorem readIntegerLE_succ (l : List Nat) (n : Nat) :
    readIntegerLE l (n + 1) = readIntegerLE l n + 256 ^ n * l.getD n 0 := by
  induction n generalizing l with
  | zero =>
    cases l with
    | nil => simp [readIntegerLE]
    | cons b rest => simp [readIntegerLE]
  | succ m ih =>
    cases l with
    | nil => simp [readIntegerLE]
    | cons b rest =>
      simp only [readIntegerLE, ih rest, List.getD_cons_succ]
      ring

theorem getD_lt_256 (l : List Nat) (n : Nat) (hv : ∀ b ∈ l, b < 256) :
    l.getD n 0 < 256 := by
  induction l generalizing n with
  | nil => simp
  | cons b rest ih =>
    cases n with
    | zero => exact hv b (List.mem_cons_self b rest)
    | succ m => simpa using ih m (fun x hx => hv x (List.mem_cons_of_mem b hx))

theorem msb_iff (l : List Nat) (n : Nat) (hv : ∀ b ∈ l, b < 256) :
    128 ≤ l.getD n 0 ↔ 256 ^ n * 128 ≤ readIntegerLE l (n + 1) := by
  have hlow := readIntegerLE_lt l n hv
  have hm := getD_lt_256 l n hv
  rw [readIntegerLE_succ]
  constructor
  · intro h
    have : 256 ^ n * 128 ≤ 256 ^ n * l.getD n 0 := Nat.mul_le_mul_left _ h
    omega
  · intro h
    by_contra hc
    push_neg at hc
    have : 256 ^ n * l.getD n 0 ≤ 256 ^ n * 127 :=
      Nat.mul_le_mul_left _ (by omega)
    have h128 : 256 ^ n * 128 = 256 ^ n * 127 + 256 ^ n := by ring
    omega

theorem pow256_mul_128 (k : Nat) : 256 ^ k * 128 = 2 ^ (8 * k + 7) := by
  have h : (256 : Nat) = 2 ^ 8 := by norm_num
  rw [h, ← pow_mul, pow_add]
  norm_num

theorem getIntDirect_eq_spec (s : Slice) (hv : ValidBytes s)
    (hh : 0x20 ≤ headByte s ∧ headByte s ≤ 0x27) :
    getIntDirect s = signExtendSpec s := by
  have hvd : ∀ b ∈ s.drop 1, b < 256 := fun b hb => hv b (List.mem_of_mem_drop hb)
  obtain ⟨k, hk, hk7⟩ :
      ∃ k, headByte s - 0x1f = k + 1 ∧ (headByte s = 0x27 → k = 7) :=
    ⟨headByte s - 0x20, by omega, by omega⟩
  simp only [getIntDirect, signExtendSpec, readIntegerNonEmpty]
  rw [hk]
  simp only [Nat.add_sub_cancel]
  have hkey : 128 ≤ (s.drop 1).getD k 0 ↔
      2 ^ (8 * k + 7) ≤ readIntegerLE (s.drop 1) (k + 1) := by
    rw [msb_iff (s.drop 1) k hvd, pow256_mul_128]
  set v := readIntegerLE (s.drop 1) (k + 1) with hvdef
  have hcast : ((2 : Int) ^ (8 * k + 7)) = ((2 ^ (8 * k + 7) : Nat) : Int) := by
    push_cast
    ring
  by_cases h39 : headByte s = 0x27
  · have hk7' : k = 7 := hk7 h39
    subst hk7'
    rw [if_pos h39]
    unfold toInt64
    by_cases hmsb : 128 ≤ (s.drop 1).getD 7 0
    · have hge : 2 ^ 63 ≤ v := by
        have := hkey.mp hmsb
        norm_num at this
        exact this
      rw [if_pos hmsb, if_neg (by push_neg; exact_mod_cast hge)]
    · have hlt : v < 2 ^ 63 := by
        by_contra hc
        push_neg at hc
        have h63 : 2 ^ (8 * 7 + 7) ≤ v := by norm_num; omega
        exact hmsb (hkey.mpr h63)
      rw [if_neg hmsb, if_pos (by exact_mod_cast hlt)]
  · rw [if_neg h39]
    have he : (k + 1) * 8 - 1 = 8 * k + 7 := by omega
    rw [he]
    by_cases hmsb : 128 ≤ (s.drop 1).getD k 0
    · have hge : 2 ^ (8 * k + 7) ≤ v := hkey.mp hmsb
      rw [if_pos hmsb, if_neg (by rw [hcast]; push_neg; exact_mod_cast hge)]
      have h2 : (2 : Int) * 2 ^ (8 * k + 7) = 2 ^ (8 * (k + 1)) := by
        rw [mul_comm, ← pow_succ]
        congr 1
      rw [h2]
    · have hlt : v < 2 ^ (8 * k + 7) := by
        by_contra hc
        push_neg at hc
        exact hmsb (hkey.mpr hc)
      rw [if_neg hmsb, if_pos (by rw [hcast]; exact_mod_cast hlt)]

/-- C5: for every Slice with Int head `0x20..0x27`, `GetInt` reads
`n = head - 0x1f` payload bytes as a little-endian unsigned integer and
sign-extends from the top bit of the most significant payload byte (for head
`0x27`, the two's-complement reinterpretation of the 64-bit value). -/
theorem getInt_sign_extension (s : Slice) (hv : ValidBytes s)
    (hh : 0x20 ≤ headByte s ∧ headByte s ≤ 0x27) :
    GetInt s = .ok (signExtendSpec s) := by
  unfold GetInt
  rw [if_pos hh, getIntDirect_eq_spec s hv hh]

theorem getInt_sign_extension_witness :
    GetInt [0x21, 0x00, 0x80] = .ok (-32768) := by
  rw [getInt_sign_extension [0x21, 0x00, 0x80] (by decide) (by decide)]
  decide

/-- C4: for a Slice with UInt head `0x28..0x2f`, `GetInt` fails with
number-out-of-range exactly when the encoded unsigned value exceeds
`2^63 - 1` and otherwise returns that value as a signed integer; conversely
`GetUInt` on an Int-headed slice (`0x20..0x27`) fails with
number-out-of-range exactly when the encoded (sign-extended) value is
negative, and otherwise returns it. -/
theorem int_uint_range_boundary (s : Slice) (hv : ValidBytes s) :
    (0x28 ≤ headByte s ∧ headByte s ≤ 0x2f →
      GetInt s = if 2 ^ 63 - 1 < readIntegerLE (s.drop 1) (headByte s - 0x27)
                 then .error .NumberOutOfRange
                 else .ok ((readIntegerLE (s.drop 1) (headByte s - 0x27) : Int))) ∧
    (0x20 ≤ headByte s ∧ headByte s ≤ 0x27 →
      GetUInt s = if signExtendSpec s < 0 then .error .NumberOutOfRange
                  else .ok (signExtendSpec s).toNat) := by
  constructor
  · intro hh
    have huint : GetUInt s = .ok (readIntegerLE (s.drop 1) (headByte s - 0x27)) := by
      unfold GetUInt
      by_cases h28 : headByte s = 0x28
      · rw [if_pos h28, h28]
        congr 1
        cases s with
        | nil => simp [readIntegerLE]
        | cons b rest =>
          cases rest with
          | nil => simp [readIntegerLE]
          | cons c t => simp [readIntegerLE]
      · rw [if_neg h28, if_pos (by omega)]
        rfl
    unfold GetInt
    rw [if_neg (by omega), if_pos hh, huint]
  · intro hh
    unfold GetUInt
    rw [if_neg (by omega), if_neg (by omega), if_pos hh,
      getIntDirect_eq_spec s hv hh]

theorem int_uint_range_boundary_witness :
    GetInt [0x2f, 0, 0, 0, 0, 0, 0, 0, 0x80] = .error .NumberOutOfRange ∧
    GetUInt [0x20, 0xff] = .error .NumberOutOfRange ∧
    GetUInt [0x20, 0x7f] = .ok 127 := by
  refine ⟨?_, ?_, ?_⟩
  · rw [(int_uint_range_boundary [0x2f, 0, 0, 0, 0, 0, 0, 0, 0x80] (by decide)).1
      (by decide)]
    decide
  · rw [(int_uint_range_boundary [0x20, 0xff] (by decide)).2 (by decide)]
    decide
  · rw [(int_uint_range_boundary [0x20, 0x7f] (by decide)).2 (by decide)]
    decide

theorem getNthOffset_oob (s : Slice) (i n : Nat)
    (hcont : IsArray s = true ∨ IsObject s = true) (hlen : Length s = .ok n)
    (hi : n ≤ i) : getNthOffset s i = .error .IndexOutOfBounds := by
  have hIA : ¬(¬ IsArray s = true ∧ ¬ IsObject s = true) := by
    rcases hcont with h | h <;> simp [h]
  unfold Length at hlen
  rw [if_neg hIA] at hlen
  by_cases hcpt : headByte s = 0x13 ∨ headByte s = 0x14
  · rw [if_neg (by omega), if_pos hcpt] at hlen
    simp only [] at hlen
    have hn := Except.ok.inj hlen
    unfold getNthOffset
    rw [if_pos hcpt]
    unfold getNthOffsetFromCompact
    simp only []
    rw [hn, if_pos hi]
  · by_cases hemp : headByte s = 0x01 ∨ headByte s = 0x0a
    · unfold getNthOffset
      rw [if_neg hcpt, if_pos hemp]
    · rw [if_neg hemp, if_neg hcpt] at hlen
      unfold getNthOffset
      rw [if_neg hcpt, if_neg hemp]
      simp only [] at hlen ⊢
      by_cases h05 : headByte s ≤ 0x05
      · rw [if_pos h05] at hlen
        simp only [if_pos h05] at hlen ⊢
        cases hbs : ByteSize (s.drop (findDataOffset s (headByte s))) with
        | error er => rw [hbs] at hlen; exact absurd hlen (by simp)
        | ok sz =>
          rw [hbs] at hlen
          simp only [] at hlen
          by_cases hsz : sz = 0
          · rw [if_pos hsz] at hlen; exact absurd hlen (by simp)
          · rw [if_neg hsz] at hlen
            have hn := Except.ok.inj hlen
            simp only [hbs, if_neg hsz, hn, if_pos hi]
      · rw [if_neg h05] at hlen
        simp only [if_neg h05] at hlen ⊢
        by_cases hw : widthMap (headByte s) < 8
        · rw [if_pos hw] at hlen
          have hn := Except.ok.inj hlen
          simp only [if_pos hw, hn, if_pos hi]
        · rw [if_neg hw] at hlen
          have hn := Except.ok.inj hlen
          simp only [if_neg hw, hn, if_pos hi]

/-- C8: for every Array or Object Slice whose `Length` is `n` (including the
compact forms and the empty containers `0x01` and `0x0a`), member access by
index (`At`, `KeyAt`, `ValueAt`) with an index `≥ n` fails with
index-out-of-bounds. -/
theorem member_access_out_of_bounds (tr : Option Translator) (s : Slice)
    (i n : Nat) (translate : Bool) (hlen : Length s = .ok n) (hi : n ≤ i) :
    (IsArray s → At s i = .error .IndexOutOfBounds) ∧
    (IsObject s → KeyAt tr s i translate = .error .IndexOutOfBounds ∧
                  ValueAt tr s i = .error .IndexOutOfBounds) := by
  constructor
  · intro ha
    have hoff := getNthOffset_oob s i n (Or.inl ha) hlen hi
    unfold At getNth
    simp [ha, hoff]
  · intro ho
    have hoff := getNthOffset_oob s i n (Or.inr ho) hlen hi
    refine ⟨?_, ?_⟩
    · unfold KeyAt getNthKey
      simp [ho, hoff]
    · unfold ValueAt getNthKey
      simp [ho, hoff]

theorem member_access_out_of_bounds_witness :
    At [0x02, 0x05, 0x31, 0x32, 0x33] 3 = .error .IndexOutOfBounds ∧
    KeyAt none [0x0a] 0 true = .error .IndexOutOfBounds ∧
    ValueAt none [0x14, 0x0f, 0x41, 0x61, 0x30, 0x41, 0x62, 0x31, 0x41, 0x63, 0x32,
      0x41, 0x64, 0x33, 0x04] 4 = .error .IndexOutOfBounds := by
  refine ⟨?_, ?_, ?_⟩
  · exact (member_access_out_of_bounds none [0x02, 0x05, 0x31, 0x32, 0x33] 3 3 true
      (by decide) (by decide)).1 (by decide)
  · exact ((member_access_out_of_bounds none [0x0a] 0 0 true
      (by decide) (by decide)).2 (by decide)).1
  · exact ((member_access_out_of_bounds none [0x14, 0x0f, 0x41, 0x61, 0x30, 0x41,
      0x62, 0x31, 0x41, 0x63, 0x32, 0x41, 0x64, 0x33, 0x04] 4 4 true
      (by decide) (by decide)).2 (by decide)).2

/-- The key slice probed by both object search paths at index-table entry
`i`: the offset table entry at `ieBase + i * offsetSize` is read as a
little-endian unsigned and interpreted as an offset from the container's
start. -/
def keySliceAt (s : Slice) (ieBase offsetSize i : Nat) : Slice :=
  s.drop (readIntegerLE (s.drop (ieBase + i * offsetSize)) offsetSize)

/-- A short-String key: head `0x40..0xbe`. -/
def isShortString (k : Slice) : Bool :=
  decide (0x40 ≤ headByte k) && decide (headByte k ≤ 0xbe)

/-- The byte content of a short-String key. -/
def keyStr (k : Slice) : List Nat := (k.drop 1).take (headByte k - 0x40)

theorem typeOfHead_shortString (h : Nat) (h1 : 0x40 ≤ h) (h2 : h ≤ 0xbe) :
    typeOfHead h = .String := by
  unfold typeOfHead
  iterate 17 rw [if_neg (by omega)]
  rw [if_pos (by omega)]

theorem isShortString_isString (k : Slice) (h : isShortString k = true) :
    IsString k = true := by
  simp only [isShortString, Bool.and_eq_true, decide_eq_true_eq] at h
  simp only [IsString, typeOf, typeOfHead_shortString (headByte k) h.1 h.2]
  rfl

theorem byteSize_shortString (k : Slice) (h : isShortString k = true) :
    ByteSize k = .ok (headByte k - 0x40 + 1) := by
  simp only [isShortString, Bool.and_eq_true, decide_eq_true_eq] at h
  have hfx : fixedTypeLengths (headByte k) = headByte k - 0x40 + 1 := by
    unfold fixedTypeLengths
    split_ifs <;> omega
  have hne : fixedTypeLengths (headByte k) ≠ 0 := by omega
  unfold ByteSize
  simp only []
  rw [if_pos hne, hfx]

theorem getString_shortString (k : Slice) (h : isShortString k = true) :
    GetString k = .ok (keyStr k) := by
  simp only [isShortString, Bool.and_eq_true, decide_eq_true_eq] at h
  unfold GetString keyStr
  rw [if_pos h]

theorem isEqualString_shortString (k : Slice) (a : List Nat)
    (h : isShortString k = true) :
    IsEqualString k a = .ok (keyStr k == a) := by
  unfold IsEqualString
  rw [getString_shortString k h]

theorem compareString_shortString (k : Slice) (a : List Nat)
    (h : isShortString k = true) :
    CompareString k a = .ok (lexCompare (keyStr k) a) := by
  unfold CompareString
  rw [getString_shortString k h]

theorem next_shortString (k : Slice) (h : isShortString k = true) :
    Next k = .ok (k.drop (headByte k - 0x40 + 1)) := by
  unfold Next
  rw [byteSize_shortString k h]

theorem lexCompare_eq_zero_iff (a : List Nat) : ∀ b, lexCompare a b = 0 ↔ a = b := by
  induction a with
  | nil => intro b; cases b <;> simp [lexCompare]
  | cons x xs ih =>
    intro b
    cases b with
    | nil => simp [lexCompare]
    | cons y ys =>
      simp only [lexCompare, List.cons.injEq]
      split_ifs with h1 h2
      · constructor
        · intro h; norm_num at h
        · rintro ⟨rfl, -⟩; omega
      · constructor
        · intro h; norm_num at h
        · rintro ⟨rfl, -⟩; omega
      · have hxy : x = y := by omega
        simp [hxy, ih ys]

theorem lexCompare_trichotomy (a : List Nat) :
    ∀ b, lexCompare a b = -1 ∨ lexCompare a b = 0 ∨ lexCompare a b = 1 := by
  induction a with
  | nil => intro b; cases b <;> simp [lexCompare]
  | cons x xs ih =>
    intro b
    cases b with
    | nil => simp [lexCompare]
    | cons y ys =>
      simp only [lexCompare]
      split_ifs <;> simp [ih ys]

theorem lexCompare_trans_neg (a : List Nat) :
    ∀ b c, lexCompare a b = -1 → lexCompare b c = -1 → lexCompare a c = -1 := by
  induction a with
  | nil =>
    intro b c h1 h2
    cases b with
    | nil => simp [lexCompare] at h1
    | cons y ys =>
      cases c with
      | nil => simp [lexCompare] at h2
      | cons z zs => simp [lexCompare]
  | cons x xs ih =>
    intro b c h1 h2
    cases b with
    | nil => simp [lexCompare] at h1
    | cons y ys =>
      cases c with
      | nil => simp only [lexCompare] at h2; omega
      | cons z zs =>
        simp only [lexCompare] at h1 h2 ⊢
        split_ifs at h1 h2 ⊢ <;>
          first | omega | (exact ih ys zs h1 h2)

theorem searchLinearFrom_notfound (tr : Option Translator) (s : Slice)
    (attr : List Nat) (ieBase w : Nat) :
    ∀ count index,
      (∀ j, index ≤ j → j < index + count →
        isShortString (keySliceAt s ieBase w j) = true ∧
        keyStr (keySliceAt s ieBase w j) ≠ attr) →
      searchObjectKeyLinearFrom tr s attr ieBase w count index = .ok none := by
  intro count
  induction count with
  | zero => intro index _; rfl
  | succ c ih =>
    intro index h
    obtain ⟨hss, hne⟩ := h index (le_refl _) (by omega)
    have hfold : s.drop (readIntegerNonEmpty (s.drop (ieBase + index * w)) w) =
        keySliceAt s ieBase w index := rfl
    unfold searchObjectKeyLinearFrom
    simp only []
    rw [hfold, if_pos (isShortString_isString _ hss),
      isEqualString_shortString _ attr hss]
    have hbe : (keyStr (keySliceAt s ieBase w index) == attr) = false := by
      simp [hne]
    rw [hbe]
    simp only []
    exact ih (index + 1) (fun j hj1 hj2 => h j (by omega) (by omega))

theorem searchLinearFrom_found (tr : Option Translator) (s : Slice)
    (attr : List Nat) (ieBase w : Nat) :
    ∀ count index i0, index ≤ i0 → i0 < index + count →
      (∀ j, index ≤ j → j < i0 →
        isShortString (keySliceAt s ieBase w j) = true ∧
        keyStr (keySliceAt s ieBase w j) ≠ attr) →
      isShortString (keySliceAt s ieBase w i0) = true →
      keyStr (keySliceAt s ieBase w i0) = attr →
      searchObjectKeyLinearFrom tr s attr ieBase w count index =
        .ok (some ((keySliceAt s ieBase w i0).drop
          (headByte (keySliceAt s ieBase w i0) - 0x40 + 1))) := by
  intro count
  induction count with
  | zero => intro index i0 h1 h2 _ _ _; omega
  | succ c ih =>
    intro index i0 h1 h2 hbefore hss0 hattr
    unfold searchObjectKeyLinearFrom
    simp only []
    by_cases heq : index = i0
    · subst heq
      have hfold : s.drop (readIntegerNonEmpty (s.drop (ieBase + index * w)) w) =
          keySliceAt s ieBase w index := rfl
      rw [hfold, if_pos (isShortString_isString _ hss0),
        isEqualString_shortString _ attr hss0]
      have hbe : (keyStr (keySliceAt s ieBase w index) == attr) = true := by
        simp [hattr]
      rw [hbe]
      simp only []
      rw [next_shortString _ hss0]
    · obtain ⟨hss, hne⟩ := hbefore index (le_refl _) (by omega)
      have hfold : s.drop (readIntegerNonEmpty (s.drop (ieBase + index * w)) w) =
          keySliceAt s ieBase w index := rfl
      rw [hfold, if_pos (isShortString_isString _ hss),
        isEqualString_shortString _ attr hss]
      have hbe : (keyStr (keySliceAt s ieBase w index) == attr) = false := by
        simp [hne]
      rw [hbe]
      simp only []
      exact ih (index + 1) i0 (by omega) (by omega)
        (fun j hj1 hj2 => hbefore j (by omega) hj2) hss0 hattr

theorem searchBinaryLoop_notfound (tr : Option Translator) (s : Slice)
    (attr : List Nat) (ieBase w : Nat) :
    ∀ fuel l r, l ≤ r →
      (∀ j, l ≤ j → j ≤ r → isShortString (keySliceAt s ieBase w j) = true ∧
        keyStr (keySliceAt s ieBase w j) ≠ attr) →
      r + 1 - l ≤ fuel →
      searchObjectKeyBinaryLoop tr s attr ieBase w fuel l r = .ok none := by
  intro fuel
  induction fuel with
  | zero => intro l r hlr _ hf; omega
  | succ f ih =>
    intro l r hlr h hf
    have hdiv : (r - l) / 2 ≤ r - l := Nat.div_le_self _ _
    obtain ⟨hss, hne⟩ := h (l + (r - l) / 2) (by omega) (by omega)
    have hfold : s.drop (readIntegerFixed
        (s.drop (ieBase + (l + (r - l) / 2) * w)) w) =
        keySliceAt s ieBase w (l + (r - l) / 2) := rfl
    have h0 : lexCompare (keyStr (keySliceAt s ieBase w (l + (r - l) / 2))) attr ≠ 0 := by
      rw [Ne, lexCompare_eq_zero_iff]
      exact hne
    unfold searchObjectKeyBinaryLoop
    simp only []
    rw [hfold, if_pos (isShortString_isString _ hss),
      compareString_shortString _ attr hss]
    simp only []
    rcases lexCompare_trichotomy
        (keyStr (keySliceAt s ieBase w (l + (r - l) / 2))) attr with hm | hm | hm
    · rw [hm]
      norm_num
      intro hr2
      exact ih (l + (r - l) / 2 + 1) r (by omega)
        (fun j hj1 hj2 => h j (by omega) hj2) (by omega)
    · exact absurd hm h0
    · rw [hm]
      norm_num
      intro hi0 hil
      exact ih l (l + (r - l) / 2 - 1) (by omega)
        (fun j hj1 hj2 => h j hj1 (by omega)) (by omega)

theorem searchBinaryLoop_found (tr : Option Translator) (s : Slice)
    (attr : List Nat) (ieBase w : Nat) :
    ∀ fuel l r i0, l ≤ r → l ≤ i0 → i0 ≤ r → r + 1 - l ≤ fuel →
      (∀ j, l ≤ j → j ≤ r → isShortString (keySliceAt s ieBase w j) = true) →
      (∀ p q, l ≤ p → p < q → q ≤ r →
        lexCompare (keyStr (keySliceAt s ieBase w p))
          (keyStr (keySliceAt s ieBase w q)) = -1) →
      keyStr (keySliceAt s ieBase w i0) = attr →
      searchObjectKeyBinaryLoop tr s attr ieBase w fuel l r =
        .ok (some ((keySliceAt s ieBase w i0).drop
          (headByte (keySliceAt s ieBase w i0) - 0x40 + 1))) := by
  intro fuel
  induction fuel with
  | zero => intro l r i0 hlr _ _ hf _ _ _; omega
  | succ f ih =>
    intro l r i0 hlr hl0 h0r hf hshort hsorted hattr
    have hdiv : (r - l) / 2 ≤ r - l := Nat.div_le_self _ _
    have hss := hshort (l + (r - l) / 2) (by omega) (by omega)
    have hfold : s.drop (readIntegerFixed
        (s.drop (ieBase + (l + (r - l) / 2) * w)) w) =
        keySliceAt s ieBase w (l + (r - l) / 2) := rfl
    have hself : lexCompare attr attr = 0 := (lexCompare_eq_zero_iff attr attr).mpr rfl
    unfold searchObjectKeyBinaryLoop
    simp only []
    rw [hfold, if_pos (isShortString_isString _ hss),
      compareString_shortString _ attr hss]
    simp only []
    rcases lexCompare_trichotomy
        (keyStr (keySliceAt s ieBase w (l + (r - l) / 2))) attr with hm | hm | hm
    · -- probe key < attr: the match lies strictly to the right
      have hne : l + (r - l) / 2 ≠ i0 := by
        intro he
        rw [he, hattr, hself] at hm
        norm_num at hm
      have hgt : l + (r - l) / 2 < i0 := by
        rcases Nat.lt_or_ge (l + (r - l) / 2) i0 with h' | h'
        · exact h'
        · exfalso
          have hlt : i0 < l + (r - l) / 2 := by omega
          have := hsorted i0 (l + (r - l) / 2) hl0 hlt (by omega)
          rw [hattr] at this
          have hswap := lexCompare_trans_neg attr _ attr this hm
          rw [hself] at hswap
          norm_num at hswap
      rw [hm]
      norm_num
      rw [if_neg (by omega)]
      exact ih (l + (r - l) / 2 + 1) r i0 (by omega) (by omega) h0r (by omega)
        (fun j hj1 hj2 => hshort j (by omega) hj2)
        (fun p q hp hpq hq => hsorted p q (by omega) hpq hq) hattr
    · -- probe key = attr: by strict sortedness this is the match
      have heqk : keyStr (keySliceAt s ieBase w (l + (r - l) / 2)) = attr :=
        (lexCompare_eq_zero_iff _ attr).mp hm
      have hii : l + (r - l) / 2 = i0 := by
        rcases Nat.lt_trichotomy (l + (r - l) / 2) i0 with h' | h' | h'
        · exfalso
          have := hsorted (l + (r - l) / 2) i0 (by omega) h' h0r
          rw [heqk, hattr, hself] at this
          norm_num at this
        · exact h'
        · exfalso
          have := hsorted i0 (l + (r - l) / 2) hl0 h' (by omega)
          rw [heqk, hattr, hself] at this
          norm_num at this
      rw [hm]
      norm_num
      rw [byteSize_shortString _ hss]
      simp only []
      rw [hii]
    · -- probe key > attr: the match lies strictly to the left
      have hne : l + (r - l) / 2 ≠ i0 := by
        intro he
        rw [he, hattr, hself] at hm
        norm_num at hm
      have hlt : i0 < l + (r - l) / 2 := by
        rcases Nat.lt_or_ge i0 (l + (r - l) / 2) with h' | h'
        · exact h'
        · exfalso
          have hlt2 : l + (r - l) / 2 < i0 := by omega
          have hs := hsorted (l + (r - l) / 2) i0 (by omega) hlt2 h0r
          rw [hattr, hm] at hs
          norm_num at hs
      rw [hm]
      norm_num
      rw [if_neg (by omega), if_neg (by omega)]
      exact ih l (l + (r - l) / 2 - 1) i0 (by omega) hl0 (by omega) (by omega)
        (fun j hj1 hj2 => hshort j hj1 (by omega))
        (fun p q hp hpq hq => hsorted p q hp hpq (by omega)) hattr

/-- C2: for every sorted object (heads `0x0b..0x0e`) — its `n ≥ 1` index-table
entries pointing at valid short-String keys, strictly ascending in
byte-lexicographic order — and every attribute string, the binary-search path
of `Get` (`searchObjectKeyBinary`) and the linear-scan path
(`searchObjectKeyLinear`) return identical results: the same value Slice when
the attribute is present, and the same None-Slice when absent. -/
theorem sorted_object_search_paths_agree (tr : Option Translator) (s : Slice)
    (attr : List Nat) (ieBase w n : Nat) (hn : 1 ≤ n)
    (hkeys : ∀ i, i < n → isShortString (keySliceAt s ieBase w i) = true)
    (hsorted : ∀ j, j < n → ∀ i, i < j →
      lexCompare (keyStr (keySliceAt s ieBase w i))
        (keyStr (keySliceAt s ieBase w j)) = -1) :
    searchObjectKeyBinary tr s attr ieBase n w =
      searchObjectKeyLinear tr s attr ieBase w n := by
  unfold searchObjectKeyBinary searchObjectKeyLinear
  by_cases hex : ∃ i0, i0 < n ∧ keyStr (keySliceAt s ieBase w i0) = attr
  · obtain ⟨i0, hi0n, hattr⟩ := hex
    have hself : lexCompare attr attr = 0 :=
      (lexCompare_eq_zero_iff attr attr).mpr rfl
    have hbefore : ∀ j, 0 ≤ j → j < i0 →
        isShortString (keySliceAt s ieBase w j) = true ∧
        keyStr (keySliceAt s ieBase w j) ≠ attr := by
      intro j _ hj
      refine ⟨hkeys j (by omega), ?_⟩
      intro he
      have hs := hsorted i0 hi0n j hj
      rw [he, hattr, hself] at hs
      norm_num at hs
    rw [searchBinaryLoop_found tr s attr ieBase w n 0 (n - 1) i0 (by omega)
        (by omega) (by omega) (by omega)
        (fun j hj1 hj2 => hkeys j (by omega))
        (fun p q hp hpq hq => hsorted q (by omega) p hpq) hattr,
      searchLinearFrom_found tr s attr ieBase w n 0 i0 (by omega) (by omega)
        (fun j hj1 hj2 => hbefore j hj1 hj2) (hkeys i0 hi0n) hattr]
  · push_neg at hex
    rw [searchBinaryLoop_notfound tr s attr ieBase w n 0 (n - 1) (by omega)
        (fun j hj1 hj2 => ⟨hkeys j (by omega), hex j (by omega)⟩) (by omega),
      searchLinearFrom_notfound tr s attr ieBase w n 0
        (fun j hj1 hj2 => ⟨hkeys j (by omega), hex j (by omega)⟩)]

theorem sorted_object_search_paths_agree_witness :
    searchObjectKeyBinary none [0x0b, 0x13, 0x04, 0x41, 0x61, 0x31, 0x41, 0x62,
        0x32, 0x41, 0x63, 0x33, 0x41, 0x64, 0x34, 0x03, 0x06, 0x09, 0x0c]
        [0x63] 15 4 1 =
      searchObjectKeyLinear none [0x0b, 0x13, 0x04, 0x41, 0x61, 0x31, 0x41, 0x62,
        0x32, 0x41, 0x63, 0x33, 0x41, 0x64, 0x34, 0x03, 0x06, 0x09, 0x0c]
        [0x63] 15 1 4 :=
  sorted_object_search_paths_agree none _ [0x63] 15 1 4 (by decide) (by decide)
    (by decide)

/-- The total-byte-length field of a compact container (read forward from
byte 1). -/
def objCompactEnd (s : Slice) : Nat := readVariableValueLengthFwd (s.drop 1)

/-- The trailing member count of a compact container (read backward from
`end - 1`). -/
def objCompactSize (s : Slice) : Nat :=
  readVariableValueLengthRev s (objCompactEnd s - 1)

/-- The first key slice of a compact object (right after the length field). -/
def objCompactFirst (s : Slice) : Slice :=
  s.drop (1 + getVariableValueLength (objCompactEnd s))

/-- Check that iterating `remaining` members of a compact object from key
slice `c` only meets well-formed short-String keys different from `attr`
(each step advancing past key and value like the iterator does). -/
def compactMissChk (attr : List Nat) : Nat → Slice → Bool
  | 0, _ => true
  | remaining + 1, c =>
    isShortString c && (keyStr c != attr) &&
    (if 0 < remaining then
      match Next c with
      | .error _ => false
      | .ok c1 =>
        match Next c1 with
        | .error _ => false
        | .ok c2 => compactMissChk attr remaining c2
     else true)

/-- The index-entry width of a non-compact object, as `Get` computes it. -/
def objNCWidth (s : Slice) : Nat := widthMap (headByte s)

/-- The end (total byte length) field of a non-compact object. -/
def objNCEnd (s : Slice) : Nat :=
  readIntegerNonEmpty (s.drop 1) (objNCWidth s)

/-- The member count of a non-compact object, as `Get` computes it. -/
def objNCCount (s : Slice) : Nat :=
  if objNCWidth s < 8 then
    readIntegerNonEmpty (s.drop (1 + objNCWidth s)) (objNCWidth s)
  else
    readIntegerNonEmpty (s.drop (objNCEnd s - objNCWidth s)) (objNCWidth s)

/-- The index-table base of a non-compact object, as `Get` computes it. -/
def objNCIeBase (s : Slice) : Nat :=
  if objNCWidth s < 8 then objNCEnd s - objNCCount s * objNCWidth s
  else objNCEnd s - objNCCount s * objNCWidth s - objNCWidth s

/-- Precondition under which `Get` must return a None-Slice: `s` is an object
whose keys are well-formed short Strings (through the layout the head
selects) and none of them equals `attr`. -/
def getMissPre (s : Slice) (attr : List Nat) : Prop :=
  IsObject s = true ∧
  (headByte s = 0x0a ∨
   (headByte s = 0x14 ∧
     compactMissChk attr (objCompactSize s) (objCompactFirst s) = true) ∨
   (headByte s ≠ 0x0a ∧ headByte s ≠ 0x14 ∧
    ((objNCCount s = 1 ∧
       isShortString (s.drop (findDataOffset s (headByte s))) = true ∧
       keyStr (s.drop (findDataOffset s (headByte s))) ≠ attr) ∨
     (objNCCount s ≠ 1 ∧ ∀ i, i < objNCCount s →
       isShortString (keySliceAt s (objNCIeBase s) (objNCWidth s) i) = true ∧
       keyStr (keySliceAt s (objNCIeBase s) (objNCWidth s) i) ≠ attr))))

instance (s : Slice) (attr : List Nat) : Decidable (getMissPre s attr) := by
  unfold getMissPre
  infer_instance

theorem compactLoop_none (tr : Option Translator) (attr : List Nat) :
    ∀ r c, compactMissChk attr r c = true →
      getFromCompactObjectLoop tr attr r c = .ok none := by
  intro r
  induction r with
  | zero => intro c _; rfl
  | succ rm ih =>
    intro c hchk
    unfold compactMissChk at hchk
    simp only [Bool.and_eq_true] at hchk
    obtain ⟨⟨hss, hne⟩, hstep⟩ := hchk
    have hne' : keyStr c ≠ attr := by simpa using hne
    unfold getFromCompactObjectLoop
    have hmk : makeKey tr c = .ok c := by
      unfold makeKey
      rw [if_pos (isShortString_isString _ hss)]
    rw [hmk]
    simp only []
    rw [isEqualString_shortString _ attr hss]
    have hbe : (keyStr c == attr) = false := by simp [hne']
    rw [hbe]
    simp only []
    by_cases hrm : 0 < rm
    · rw [if_pos hrm]
      rw [if_pos hrm] at hstep
      cases hnx : Next c with
      | error e => rw [hnx] at hstep; simp at hstep
      | ok c1 =>
        rw [hnx] at hstep
        simp only [] at hstep ⊢
        cases hnx2 : Next c1 with
        | error e => rw [hnx2] at hstep; simp at hstep
        | ok c2 =>
          rw [hnx2] at hstep
          simp only [] at hstep ⊢
          exact ih c2 hstep
    · rw [if_neg hrm]

theorem keyAt_zero_compact (tr : Option Translator) (s : Slice)
    (hobj : IsObject s = true) (h14 : headByte s = 0x14)
    (hsz : 0 < objCompactSize s) :
    KeyAt tr s 0 false = .ok (objCompactFirst s) := by
  have hsz2 : readVariableValueLengthRev s
      (readVariableValueLengthFwd s.tail - 1) ≠ 0 := by
    have : readVariableValueLengthRev s
        (readVariableValueLengthFwd (s.drop 1) - 1) ≠ 0 := by
      unfold objCompactSize objCompactEnd at hsz
      omega
    simpa using this
  unfold KeyAt getNthKey getNthOffset getNthOffsetFromCompact
  simp [hobj, h14, hsz2, compactWalk]
  simp [objCompactFirst, objCompactEnd, List.drop_one]

theorem getFromCompactObject_none (tr : Option Translator) (s : Slice)
    (attr : List Nat) (hobj : IsObject s = true) (h14 : headByte s = 0x14)
    (hchk : compactMissChk attr (objCompactSize s) (objCompactFirst s) = true) :
    getFromCompactObject tr s attr = .ok none := by
  have hlen : Length s = .ok (objCompactSize s) := length_compact s hobj h14
  unfold getFromCompactObject NewObjectIterator
  rw [if_neg (by simp [hobj]), hlen]
  simp only []
  by_cases hsz : 0 < objCompactSize s
  · rw [if_pos hsz, if_pos h14, keyAt_zero_compact tr s hobj h14 hsz]
    simp only []
    exact compactLoop_none tr attr _ _ hchk
  · rw [if_neg hsz]

theorem get_noncompact_none (tr : Option Translator) (s : Slice) (attr : List Nat)
    (hobj : IsObject s = true) (h0a : headByte s ≠ 0x0a) (h14 : headByte s ≠ 0x14)
    (hmiss : (objNCCount s = 1 ∧
       isShortString (s.drop (findDataOffset s (headByte s))) = true ∧
       keyStr (s.drop (findDataOffset s (headByte s))) ≠ attr) ∨
     (objNCCount s ≠ 1 ∧ ∀ i, i < objNCCount s →
       isShortString (keySliceAt s (objNCIeBase s) (objNCWidth s) i) = true ∧
       keyStr (keySliceAt s (objNCIeBase s) (objNCWidth s) i) ≠ attr)) :
    Get tr s attr = .ok none := by
  have hcount : (if widthMap (headByte s) < 8 then
      readIntegerNonEmpty (s.drop (1 + widthMap (headByte s))) (widthMap (headByte s))
    else
      readIntegerNonEmpty
        (s.drop (readIntegerNonEmpty (s.drop 1) (widthMap (headByte s)) -
          widthMap (headByte s))) (widthMap (headByte s))) = objNCCount s := rfl
  have hbase : (if widthMap (headByte s) < 8 then
      readIntegerNonEmpty (s.drop 1) (widthMap (headByte s)) -
        objNCCount s * widthMap (headByte s)
    else
      readIntegerNonEmpty (s.drop 1) (widthMap (headByte s)) -
        objNCCount s * widthMap (headByte s) - widthMap (headByte s)) =
      objNCIeBase s := rfl
  unfold Get
  rw [if_neg (by simp [hobj])]
  simp only []
  rw [if_neg h0a, if_neg h14, hcount, hbase]
  rcases hmiss with ⟨hn1, hss, hne⟩ | ⟨hn1, hkeys⟩
  · rw [if_pos hn1]
    rw [if_pos (isShortString_isString _ hss), isEqualString_shortString _ attr hss]
    have hbe : (keyStr (s.drop (findDataOffset s (headByte s))) == attr) = false := by
      simp [hne]
    rw [hbe]
  · rw [if_neg hn1]
    by_cases hs4 : 4 ≤ objNCCount s ∧ (0x0b ≤ headByte s ∧ headByte s ≤ 0x0e)
    · rw [if_pos hs4]
      by_cases hwc : widthMap (headByte s) = 1 ∨ widthMap (headByte s) = 2 ∨
          widthMap (headByte s) = 4 ∨ widthMap (headByte s) = 8
      · rw [if_pos hwc]
        unfold searchObjectKeyBinary
        exact searchBinaryLoop_notfound tr s attr (objNCIeBase s) (objNCWidth s)
          (objNCCount s) 0 (objNCCount s - 1) (by omega)
          (fun j hj1 hj2 => hkeys j (by omega)) (by omega)
      · rw [if_neg hwc]
        unfold searchObjectKeyLinear
        exact searchLinearFrom_notfound tr s attr (objNCIeBase s) (objNCWidth s)
          (objNCCount s) 0 (fun j hj1 hj2 => hkeys j (by omega))
    · rw [if_neg hs4]
      unfold searchObjectKeyLinear
      exact searchLinearFrom_notfound tr s attr (objNCIeBase s) (objNCWidth s)
        (objNCCount s) 0 (fun j hj1 hj2 => hkeys j (by omega))

/-- C3: for every well-formed object Slice — any object head: empty `0x0a`,
compact `0x14`, sorted `0x0b..0x0e`, unsorted `0x0f..0x12` — and every
attribute name not bound in the object (formalised by `getMissPre`), `Get`
returns the sentinel None-Slice with no error: absence of the attribute is
never reported as an error. -/
theorem get_missing_attribute_none (tr : Option Translator) (s : Slice)
    (attr : List Nat) (hp : getMissPre s attr) : Get tr s attr = .ok none := by
  obtain ⟨hobj, hcase⟩ := hp
  rcases hcase with h0a | ⟨h14, hchk⟩ | ⟨h0a, h14, hrest⟩
  · unfold Get
    rw [if_neg (by simp [hobj])]
    simp only []
    rw [if_pos h0a]
  · unfold Get
    rw [if_neg (by simp [hobj])]
    simp only []
    rw [if_neg (by omega), if_pos h14]
    exact getFromCompactObject_none tr s attr hobj h14 hchk
  · exact get_noncompact_none tr s attr hobj h0a h14 hrest

theorem get_missing_attribute_none_witness :
    Get none [0x14, 0x0f, 0x41, 0x61, 0x30, 0x41, 0x62, 0x31, 0x41, 0x63, 0x32,
      0x41, 0x64, 0x33, 0x04] [0x7a] = .ok none ∧
    Get none [0x0b, 0x13, 0x04, 0x41, 0x61, 0x31, 0x41, 0x62, 0x32, 0x41, 0x63,
      0x33, 0x41, 0x64, 0x34, 0x03, 0x06, 0x09, 0x0c] [0x7a] = .ok none ∧
    Get none [0x0a] [0x7a] = .ok none := by
  refine ⟨?_, ?_, ?_⟩
  · exact get_missing_attribute_none none _ [0x7a] (by decide)
  · exact get_missing_attribute_none none _ [0x7a] (by decide)
  · exact get_missing_attribute_none none _ [0x7a] (by decide)

/-! ## Conformance checks against the byte-level scenarios of the
repository test suite and spec section 8 (evaluated by the kernel) -/

example :
    Length [0x0b, 0x0f, 0x03, 0x41, 0x61, 0x31, 0x41, 0x62, 0x32, 0x41, 0x63, 0x33,
      0x03, 0x06, 0x09] = .ok 3 := by decide
example :
    Get none [0x0b, 0x0f, 0x03, 0x41, 0x61, 0x31, 0x41, 0x62, 0x32, 0x41, 0x63, 0x33,
      0x03, 0x06, 0x09] [0x61] =
    .ok (some [0x31, 0x41, 0x62, 0x32, 0x41, 0x63, 0x33, 0x03, 0x06, 0x09]) := by decide
example :
    Get none [0x0b, 0x11, 0x03, 0x00, 0x00, 0x41, 0x61, 0x31, 0x41, 0x62, 0x32, 0x41,
      0x63, 0x33, 0x05, 0x08, 0x0b] [0x61] =
    .ok (some [0x31, 0x41, 0x62, 0x32, 0x41, 0x63, 0x33, 0x05, 0x08, 0x0b]) := by decide
example :
    Get none [0x0c, 0x14, 0x00, 0x03, 0x00, 0x41, 0x61, 0x31, 0x41, 0x62, 0x32, 0x41,
      0x63, 0x33, 0x05, 0x00, 0x08, 0x00, 0x0b, 0x00] [0x62] =
    .ok (some [0x32, 0x41, 0x63, 0x33, 0x05, 0x00, 0x08, 0x00, 0x0b, 0x00]) := by decide
example :
    Length [0x14, 0x0f, 0x41, 0x61, 0x30, 0x41, 0x62, 0x31, 0x41, 0x63, 0x32, 0x41,
      0x64, 0x33, 0x04] = .ok 4 := by decide
example :
    Get none [0x14, 0x0f, 0x41, 0x61, 0x30, 0x41, 0x62, 0x31, 0x41, 0x63, 0x32, 0x41,
      0x64, 0x33, 0x04] [0x64] = .ok (some [0x33, 0x04]) := by decide
example :
    Get none [0x14, 0x0f, 0x41, 0x61, 0x30, 0x41, 0x62, 0x31, 0x41, 0x63, 0x32, 0x41,
      0x64, 0x33, 0x04] [0x7a] = .ok none := by decide
example : Get none [0x0a] [0x78] = .ok none := by decide
example :
    Get none [0x0b, 0x13, 0x04, 0x41, 0x61, 0x31, 0x41, 0x62, 0x32, 0x41, 0x63, 0x33,
      0x41, 0x64, 0x34, 0x03, 0x06, 0x09, 0x0c] [0x63] =
    .ok (some [0x33, 0x41, 0x64, 0x34, 0x03, 0x06, 0x09, 0x0c]) := by decide
example :
    Get none [0x0b, 0x13, 0x04, 0x41, 0x61, 0x31, 0x41, 0x62, 0x32, 0x41, 0x63, 0x33,
      0x41, 0x64, 0x34, 0x03, 0x06, 0x09, 0x0c] [0x7a] = .ok none := by decide
example :
    At [0x02, 0x05, 0x31, 0x32, 0x33] 2 = .ok [0x33] := by decide
example :
    At [0x02, 0x05, 0x31, 0x32, 0x33] 3 = .error .IndexOutOfBounds := by decide
example :
    ValueAt none [0x0b, 0x0f, 0x03, 0x41, 0x61, 0x31, 0x41, 0x62, 0x32, 0x41, 0x63,
      0x33, 0x03, 0x06, 0x09] 1 =
    .ok [0x32, 0x41, 0x63, 0x33, 0x03, 0x06, 0x09] := by decide
example :
    NewObjectIterator none [0x0b, 0x0f, 0x03, 0x41, 0x61, 0x31, 0x41, 0x62, 0x32,
      0x41, 0x63, 0x33, 0x03, 0x06, 0x09] = .error .Todo := by decide

example : GetUInt [0x28, 0x33] = .ok 0x33 := by decide
example : GetUInt [0x29, 0x23, 0x42] = .ok 0x4223 := by decide
example : GetUInt [0x2a, 0x23, 0x42, 0x66] = .ok 0x664223 := by decide
example : GetUInt [0x2f, 0x23, 0x42, 0x66, 0xac, 0xff, 0x3f, 0xfa, 0x6f] =
    .ok 0x6ffa3fffac664223 := by decide
example : GetInt [0x20, 0xff] = .ok (-1) := by decide
example : GetInt [0x20, 0x7f] = .ok 127 := by decide
example : GetInt [0x27, 0xff, 0xff, 0xff, 0xff, 0xff, 0xff, 0xff, 0xff] = .ok (-1) := by decide
example : GetInt [0x2f, 0, 0, 0, 0, 0, 0, 0, 0x80] = .error .NumberOutOfRange := by decide
example : GetSmallInt [0x3a] = .ok (-6) := by decide
example : GetString [0x42, 0x61, 0x62] = .ok [0x61, 0x62] := by decide
example : lexCompare [0x61] [0x62] = -1 := by decide

example : ByteSize [0x28, 0x33] = .ok 2 := by decide
example : ByteSize [0x2f, 0x23, 0x42, 0x66, 0xac, 0xff, 0x3f, 0xfa, 0x6f] = .ok 9 := by decide
example : ByteSize [0x0a] = .ok 1 := by decide
example : ByteSize [0x0b, 0x0f, 0x03] = .ok 0x0f := by decide
example : ByteSize [0x14, 0x0f, 0x41] = .ok 0x0f := by decide
example : typeOf [0x0b] = .Object := by decide
example : IsObject [0x14, 0x0f] = true := by decide

end VPack
